import Mathlib

/-!
Verification of `sys/syz-extract/extract.go` and the message-union layer of
`pkg/flatrpc/flatrpc.fbs` from the syzkaller repository.

The Go code is shallowly embedded: Go `map`s become association lists (their
iteration order is unspecified in Go, so every property proved about them is
either order-independent or quantifies over permutations), `uint64` values
become `Nat` (all rendered values fit in 64 bits and `%v` prints decimal, as
`Nat.toString` does), fallible operations become `Except`, and process exit
via `failf` (print diagnostic to stderr, exit status 1) becomes an explicit
`RunOutcome.fail` constructor.
-/

namespace SyzExtract

/-- Go `strings.TrimSuffix(s, suffix)`: returns `s` without the provided
trailing `suffix` string; `s` is unchanged when it does not end in `suffix`.
Embedded on the character list (`String.data`); all suffixes used are ASCII,
where Go's byte-wise view and the character view coincide. -/
def trimSuffix (s suffix : String) : String :=
  if suffix.data.isSuffixOf s.data then
    String.mk (s.data.take (s.data.length - suffix.data.length))
  else s

/-- `extract.go:59`: `outname := strings.TrimSuffix(inname, ".txt") + "_" + *flagArch + ".const"`. -/
def outname (inname arch : String) : String :=
  trimSuffix inname ".txt" ++ "_" ++ arch ++ ".const"

/-- Removing a path's extension: everything from the final dot onward is
dropped; a path with no dot is unchanged. -/
def dropExtension (s : String) : String :=
  let rev := s.data.reverse
  if '.' ∈ rev then String.mk ((rev.dropWhile fun c => c != '.').drop 1).reverse else s

/-- The output path as claim C1 words it: the input with its extension
removed, then `_`, the architecture name, and `.const`. This definition
follows the SPEC's words, for comparison with `outname`, which follows the
source. -/
def claimOutname (inname arch : String) : String :=
  dropExtension inname ++ "_" ++ arch ++ ".const"

/-- The shape of `sysparser.Syscall` as used by `extract.go` (only
`CallName` is read). -/
structure Syscall where
  CallName : String

/-- The shape of `sysparser.Resource` as used by `extract.go` (only
`Values` is read). -/
structure Resource where
  Values : List String

/-- The shape of `sysparser.Description` as used by `extract.go`:
`Flags map[string][]string`, `Defines map[string]string`, `Includes`,
`Incdirs`, `Syscalls`, `Resources`. Maps are embedded as association
lists. -/
structure Description where
  Flags : List (String × List String)
  Defines : List (String × String)
  Includes : List String
  Incdirs : List String
  Syscalls : List Syscall
  Resources : List Resource

/-- `extract.go:131-139` `isIdentifier`: every character is `_`, an ASCII
letter, or (at a non-initial position) an ASCII digit. Go's `range` over a
string yields byte offsets; its only use is the test `i > 0`, which agrees
with the character-position test since position 0 has byte offset 0 and
conversely. -/
def isIdentifier (s : String) : Bool :=
  s.data.enum.all fun ic =>
    ic.2 == '_' || (decide ('a' ≤ ic.2) && decide (ic.2 ≤ 'z')) ||
    (decide ('A' ≤ ic.2) && decide (ic.2 ≤ 'Z')) ||
    (decide (0 < ic.1) && decide ('0' ≤ ic.2) && decide (ic.2 ≤ '9'))

/-- `extract.go:91-111`: the contents of the set `vals` built by
`compileConsts` — every flag value, every define name, `"__NR_" + CallName`
for every syscall whose call name does not start with `syz_`, and every
resource value. The Go set `map[string]bool` is embedded as a deduplicated
list; all claims about it are membership-based, hence independent of the
arbitrary iteration order. -/
def collectVals (desc : Description) : List String :=
  ((desc.Flags.flatMap fun f => f.2) ++
   (desc.Defines.map fun d => d.1) ++
   ((desc.Syscalls.filter fun sc => !(sc.CallName.startsWith "syz_")).map
      fun sc => "__NR_" ++ sc.CallName) ++
   (desc.Resources.flatMap fun r => r.Values)).dedup

/-- `extract.go:113-119`: `valArr`, the collected symbols that pass
`isIdentifier`, in the (arbitrary) order they are drawn from the set. -/
def valArr (desc : Description) : List String :=
  (collectVals desc).filter fun v => isIdentifier v

/-- Go string comparison `a < b`: byte-wise lexicographic on the UTF-8
encoding, which coincides with code-point-wise lexicographic order on the
characters. -/
def strLess (a b : String) : Prop :=
  List.Lex (fun x y : Char => x < y) a.data b.data

instance : DecidableRel strLess := fun a b => by
  unfold strLess; infer_instance

/-- `extract.go:149` `NameValueArray.Less`, negated and flipped: Go's
`sort.Sort` postcondition is that consecutive elements `x, y` of the result
satisfy `!Less(y, x)`, i.e. `nvLe x y`. -/
def nvLe (a b : String × Nat) : Prop := ¬ strLess b.1 a.1

instance : DecidableRel nvLe := fun a b => by
  unfold nvLe; infer_instance

instance : IsTotal (String × Nat) nvLe := by
  constructor
  intro a b
  unfold nvLe strLess
  by_cases h : List.Lex (fun x y : Char => x < y) b.1.data a.1.data
  · exact Or.inr (asymm h)
  · exact Or.inl h

instance : IsTrans (String × Nat) nvLe := by
  constructor
  intro a b c hab hbc hca
  unfold nvLe at hab hbc
  unfold strLess at hab hbc hca
  rcases trichotomous (r := List.Lex fun x y : Char => x < y) c.1.data b.1.data with h | h | h
  · exact hbc h
  · exact hab (h ▸ hca)
  · exact hab (IsTrans.trans _ _ _ h hca)

/-- `extract.go:77-88` `generateConsts`: copy the constants map into an
array, sort it by name (`extract.go:146-150`: `sort.Sort(NameValueArray(nv))`
with `Less i j := a[i].name < a[j].name` guarantees exactly a permutation
of the array that is sorted under `nvLe`; `insertionSort` realizes that
contract), then print the marker line and one `name = value` line per
entry, values in decimal (`%v` on `uint64`). -/
def generateConsts (consts : List (String × Nat)) : String :=
  let nv := consts.insertionSort nvLe
  "# AUTOGENERATED FILE\n" ++
    String.join (nv.map fun x => x.1 ++ " = " ++ toString x.2 ++ "\n")

/-- `extract.go:113-129`: the tail of `compileConsts`. If no collected
symbol is a valid identifier it returns `nil` (embedded as `Except.ok []`)
without consulting the resolver; otherwise it calls `fetchValues` (repo
code outside `src/`, abstracted as the `fetch` parameter) and turns its
error into a `failf` exit (`Except.error`). -/
def compileConsts (fetch : List String → Except String (List (String × Nat)))
    (desc : Description) : Except String (List (String × Nat)) :=
  if valArr desc = [] then Except.ok []
  else
    match fetch (valArr desc) with
    | Except.error e => Except.error e
    | Except.ok consts => Except.ok consts

/-- `extract.go:26-31` `type Arch`. -/
structure Arch where
  CARCH : List String
  KernelHeaderArch : String
  KernelInclude : String
  CFlags : List String
deriving DecidableEq

/-- `extract.go:33-37`: the `archs` registry, a map from architecture name
to its `Arch` record; `none` models absence from the Go map (`nil`
lookup). -/
def archs : String → Option Arch := fun s =>
  if s = "amd64" then some ⟨["__x86_64__"], "x86", "asm/unistd.h", ["-m64"]⟩
  else if s = "arm64" then some ⟨["__aarch64__"], "arm64", "asm/unistd.h", []⟩
  else if s = "ppc64le" then
    some ⟨["__ppc64__", "__PPC64__", "__powerpc64__"], "powerpc", "asm/unistd.h",
      ["-D__powerpc64__"]⟩
  else none

/-- Outcome of one run of the tool. `fail msg` is `failf`: the diagnostic
`msg` printed to stderr followed by `os.Exit(1)`; no output file is
produced on that path. `ok (name, content)` is exit status 0 after the
single `osutil.WriteFile(name, content)` call. -/
inductive RunOutcome where
  | fail (stderrMsg : String)
  | ok (file : String × String)
deriving DecidableEq

/-- `extract.go:39-75` `main`, after flag parsing. The external effects are
parameters: `openFile` models `os.Open` followed by `sysparser.Parse`
(repo code outside `src/`), `fetch` models `fetchValues` (repo code outside
`src/`), and `writeOk` models whether `osutil.WriteFile` succeeds.
Modelled from the spec: `osutil.WriteFile` is the single write of the
complete in-memory buffer ("there is no partial-output mode"), so a run
either writes the whole content or writes nothing. The checks happen in
source order: `-linux` present, `-arch` present, `-arch` known, exactly one
positional argument, and only then is the input file opened. -/
def mainRun (flagLinux flagArch : String) (args : List String)
    (openFile : String → Except String Description)
    (fetch : List String → Except String (List (String × Nat)))
    (writeOk : Bool) : RunOutcome :=
  if flagLinux = "" then
    RunOutcome.fail "provide path to linux kernel checkout via -linux flag (or make extract LINUX= flag)"
  else if flagArch = "" then RunOutcome.fail "-arch flag is required"
  else
    match archs flagArch with
    | none => RunOutcome.fail ("unknown arch " ++ flagArch)
    | some _ =>
      match args with
      | [inname] =>
        match openFile inname with
        | Except.error e => RunOutcome.fail ("failed to open input file: " ++ e)
        | Except.ok desc =>
          match compileConsts fetch desc with
          | Except.error e => RunOutcome.fail e
          | Except.ok consts =>
            if writeOk then RunOutcome.ok (outname inname flagArch, generateConsts consts)
            else RunOutcome.fail "failed to write output file"
      | _ =>
        RunOutcome.fail "usage: syz-extract -linux=/linux/checkout -arch=arch sys/input_file.txt"

end SyzExtract

namespace FlatRPC

/-!
Embedding of the message-union layer of `pkg/flatrpc/flatrpc.fbs`.
Flatbuffers scalar types are embedded as `Int` (signed) and `Nat`
(unsigned, including bit-flag masks and bytes), vectors as `List`,
strings as `String`. Only the shape matters for the union claims.
-/

/-- `flatrpc.fbs` `struct ExecOptsRaw`. -/
structure ExecOptsRaw where
  env_flags : Nat
  exec_flags : Nat
  sandbox_arg : Int

/-- `flatrpc.fbs` `table ExecRequestRaw`. -/
structure ExecRequestRaw where
  id : Int
  prog_data : List Nat
  exec_opts : ExecOptsRaw
  flags : Nat
  all_signal : List Int

/-- `flatrpc.fbs` `table SignalUpdateRaw`. -/
structure SignalUpdateRaw where
  new_max : List Nat

/-- `flatrpc.fbs` `table CorpusTriagedRaw` (no fields). -/
structure CorpusTriagedRaw where

/-- `flatrpc.fbs` `table StateRequestRaw` (no fields). -/
structure StateRequestRaw where

/-- `flatrpc.fbs` `table ExecutingMessageRaw`; the schema field `try` is a
Lean keyword and is embedded as `try_`. -/
structure ExecutingMessageRaw where
  id : Int
  proc_id : Int
  try_ : Int
  wait_duration : Int

/-- `flatrpc.fbs` `struct ComparisonRaw`. -/
structure ComparisonRaw where
  op1 : Nat
  op2 : Nat

/-- `flatrpc.fbs` `table CallInfoRaw`. -/
structure CallInfoRaw where
  flags : Nat
  error : Int
  signal : List Nat
  cover : List Nat
  comps : List ComparisonRaw

/-- `flatrpc.fbs` `table ProgInfoRaw`. -/
structure ProgInfoRaw where
  calls : List CallInfoRaw
  extra_raw : List CallInfoRaw
  extra : Option CallInfoRaw
  elapsed : Nat
  freshness : Nat

/-- `flatrpc.fbs` `table ExecResultRaw`. -/
structure ExecResultRaw where
  id : Int
  output : List Nat
  error : String
  info : Option ProgInfoRaw

/-- `flatrpc.fbs` `table StateResultRaw`. -/
structure StateResultRaw where
  data : List Nat

/-- `flatrpc.fbs:84-89` `union HostMessagesRaw`: the closed tagged union of
messages sent from the host to the executor. -/
inductive HostMessagesRaw where
  | ExecRequest (x : ExecRequestRaw)
  | SignalUpdate (x : SignalUpdateRaw)
  | CorpusTriaged (x : CorpusTriagedRaw)
  | StateRequest (x : StateRequestRaw)

/-- `flatrpc.fbs:96-100` `union ExecutorMessagesRaw`: the closed tagged
union of messages sent from the executor to the host. -/
inductive ExecutorMessagesRaw where
  | ExecResult (x : ExecResultRaw)
  | Executing (x : ExecutingMessageRaw)
  | State (x : StateResultRaw)

/-- The variant tag carried by a host-to-executor message. -/
def hostVariantName : HostMessagesRaw → String
  | .ExecRequest _ => "ExecRequest"
  | .SignalUpdate _ => "SignalUpdate"
  | .CorpusTriaged _ => "CorpusTriaged"
  | .StateRequest _ => "StateRequest"

/-- The variant tag carried by an executor-to-host message. -/
def executorVariantName : ExecutorMessagesRaw → String
  | .ExecResult _ => "ExecResult"
  | .Executing _ => "Executing"
  | .State _ => "State"

/-- The `(variant tag, payload table type)` pairs of `union
HostMessagesRaw`, transcribed from `flatrpc.fbs:84-89`. -/
def hostUnionMembers : List (String × String) :=
  [("ExecRequest", "ExecRequestRaw"), ("SignalUpdate", "SignalUpdateRaw"),
   ("CorpusTriaged", "CorpusTriagedRaw"), ("StateRequest", "StateRequestRaw")]

/-- The `(variant tag, payload table type)` pairs of `union
ExecutorMessagesRaw`, transcribed from `flatrpc.fbs:96-100`. -/
def executorUnionMembers : List (String × String) :=
  [("ExecResult", "ExecResultRaw"), ("Executing", "ExecutingMessageRaw"),
   ("State", "StateResultRaw")]

end FlatRPC

namespace SyzExtract

theorem strLess_asymm {a b : String} (h : strLess a b) : ¬ strLess b a := by
  unfold strLess at h ⊢
  exact asymm h

theorem strLess_trichotomy (a b : String) : strLess a b ∨ a = b ∨ strLess b a := by
  unfold strLess
  rcases trichotomous (r := List.Lex fun x y : Char => x < y) a.data b.data with h | h | h
  · exact Or.inl h
  · exact Or.inr (Or.inl (String.ext h))
  · exact Or.inr (Or.inr h)

/-- A list sorted under the Go-sort postcondition relation `nvLe` whose
names are distinct is strictly sorted by name. -/
theorem pairwise_strict_of_sorted_nvLe {nv : List (String × Nat)}
    (hnodup : (nv.map Prod.fst).Nodup) (hs : nv.Sorted nvLe) :
    nv.Sorted fun a b => strLess a.1 b.1 := by
  have hne : nv.Pairwise fun a b => a.1 ≠ b.1 := List.pairwise_map.mp hnodup
  refine (hs.and hne).imp ?_
  rintro a b ⟨hle, hne2⟩
  rcases strLess_trichotomy a.1 b.1 with h | h | h
  · exact h
  · exact absurd h hne2
  · exact absurd h hle

/-- C1 (amended): the output path is the input path with a trailing `.txt`
removed when present — any other extension is kept verbatim — followed by
`_`, the architecture name, and `.const`. -/
theorem outname_trims_txt_suffix :
    (∀ base arch : String, outname (base ++ ".txt") arch = base ++ "_" ++ arch ++ ".const") ∧
    ∀ s arch : String, ".txt".data.isSuffixOf s.data = false →
      outname s arch = s ++ "_" ++ arch ++ ".const" := by
  constructor
  · intro base arch
    unfold outname trimSuffix
    have hsuf : ".txt".data.isSuffixOf (base ++ ".txt").data = true := by
      rw [String.data_append]
      exact List.isSuffixOf_iff_suffix.mpr (List.suffix_append base.data ".txt".data)
    rw [hsuf]
    simp only [if_true]
    have htake : (base ++ ".txt").data.take ((base ++ ".txt").data.length - ".txt".data.length)
        = base.data := by
      rw [String.data_append, List.length_append]
      have hlen : base.data.length + ".txt".data.length - ".txt".data.length
          = base.data.length := by omega
      rw [hlen]
      exact List.take_left' rfl
    rw [htake]
  · intro s arch h
    unfold outname trimSuffix
    rw [h]
    simp

/-- Witness for `outname_trims_txt_suffix` at concrete inputs. -/
theorem outname_trims_txt_suffix_witness :
    outname ("sys/foo" ++ ".txt") "amd64" = "sys/foo" ++ "_" ++ "amd64" ++ ".const" ∧
    (".txt".data.isSuffixOf "sys/bar.c".data = false ∧
      outname "sys/bar.c" "amd64" = "sys/bar.c" ++ "_" ++ "amd64" ++ ".const") :=
  ⟨outname_trims_txt_suffix.1 "sys/foo" "amd64",
   by decide, outname_trims_txt_suffix.2 "sys/bar.c" "amd64" (by decide)⟩

/-- Counterexample to C1 as stated: for the input `sys/foo.md` the claim
prescribes the output path `sys/foo_amd64.const` (extension removed), but
the tool runs to completion writing `sys/foo.md_amd64.const` — only a
`.txt` suffix is ever removed. -/
theorem outname_keeps_other_extensions :
    mainRun "/linux" "amd64" ["sys/foo.md"]
        (fun _ => Except.ok ⟨[], [], [], [], [], []⟩) (fun _ => Except.ok []) true
      = RunOutcome.ok ("sys/foo.md_amd64.const", "# AUTOGENERATED FILE\n") ∧
    claimOutname "sys/foo.md" "amd64" = "sys/foo_amd64.const" ∧
    outname "sys/foo.md" "amd64" ≠ claimOutname "sys/foo.md" "amd64" :=
  ⟨by decide, by decide, by decide⟩

/-- C2: `generateConsts` writes the marker line `# AUTOGENERATED FILE`
first, then exactly one `name = value` line per constant of the map (a
permutation of its entries), values rendered in decimal, with the lines in
lexicographically sorted order of the constant names. -/
theorem generateConsts_sorted_lines (consts : List (String × Nat))
    (hnodup : (consts.map Prod.fst).Nodup) :
    ∃ nv : List (String × Nat),
      nv.Perm consts ∧ (nv.Sorted fun a b => strLess a.1 b.1) ∧
      generateConsts consts =
        "# AUTOGENERATED FILE\n" ++
          String.join (nv.map fun x => x.1 ++ " = " ++ toString x.2 ++ "\n") := by
  refine ⟨consts.insertionSort nvLe, List.perm_insertionSort nvLe consts, ?_, rfl⟩
  apply pairwise_strict_of_sorted_nvLe
  · exact ((List.perm_insertionSort nvLe consts).map Prod.fst).nodup_iff.mpr hnodup
  · exact List.sorted_insertionSort nvLe consts

/-- Witness for `generateConsts_sorted_lines` on a concrete two-entry map. -/
theorem generateConsts_sorted_lines_witness :
    (([("b", 2), ("a", 10)] : List (String × Nat)).map Prod.fst).Nodup ∧
    ∃ nv : List (String × Nat),
      nv.Perm [("b", 2), ("a", 10)] ∧ (nv.Sorted fun a b => strLess a.1 b.1) ∧
      generateConsts [("b", 2), ("a", 10)] =
        "# AUTOGENERATED FILE\n" ++
          String.join (nv.map fun x => x.1 ++ " = " ++ toString x.2 ++ "\n") :=
  ⟨by decide, generateConsts_sorted_lines [("b", 2), ("a", 10)] (by decide)⟩

/-- C3: `generateConsts` is deterministic — any two enumeration orders of
the same constants map (a Go map is unordered, so two runs may enumerate
it differently) produce byte-identical output. -/
theorem generateConsts_deterministic (c1 c2 : List (String × Nat))
    (hperm : c1.Perm c2) (hnodup : (c1.map Prod.fst).Nodup) :
    generateConsts c1 = generateConsts c2 := by
  have h1 : (c1.insertionSort nvLe).Perm c1 := List.perm_insertionSort nvLe c1
  have h2 : (c2.insertionSort nvLe).Perm c2 := List.perm_insertionSort nvLe c2
  have hn2 : (c2.map Prod.fst).Nodup := (hperm.map Prod.fst).nodup_iff.mp hnodup
  have hs1 := pairwise_strict_of_sorted_nvLe
    ((h1.map Prod.fst).nodup_iff.mpr hnodup) (List.sorted_insertionSort nvLe c1)
  have hs2 := pairwise_strict_of_sorted_nvLe
    ((h2.map Prod.fst).nodup_iff.mpr hn2) (List.sorted_insertionSort nvLe c2)
  haveI : IsAntisymm (String × Nat) fun a b => strLess a.1 b.1 :=
    ⟨fun a b hab hba => absurd hba (strLess_asymm hab)⟩
  have heq : c1.insertionSort nvLe = c2.insertionSort nvLe :=
    List.eq_of_perm_of_sorted (h1.trans (hperm.trans h2.symm)) hs1 hs2
  unfold generateConsts
  rw [heq]

/-- C4: the set of symbols `compileConsts` collects for resolution contains
exactly: every flag value, every define name, `__NR_` + CallName for
exactly the syscalls whose call name does not start with `syz_`, and every
resource value. -/
theorem compileConsts_collects (desc : Description) (v : String) :
    v ∈ collectVals desc ↔
      ((∃ f ∈ desc.Flags, v ∈ f.2) ∨
       (∃ d ∈ desc.Defines, v = d.1) ∨
       (∃ sc ∈ desc.Syscalls,
         sc.CallName.startsWith "syz_" = false ∧ v = "__NR_" ++ sc.CallName) ∨
       (∃ r ∈ desc.Resources, v ∈ r.Values)) := by
  unfold collectVals
  simp only [List.mem_dedup, List.mem_append, List.mem_flatMap, List.mem_map,
    List.mem_filter, Bool.not_eq_true']
  constructor
  · rintro (((⟨f, hf, hv⟩ | ⟨d, hd, hv⟩) | ⟨sc, ⟨hsc, hsyz⟩, hv⟩) | ⟨r, hr, hv⟩)
    · exact Or.inl ⟨f, hf, hv⟩
    · exact Or.inr (Or.inl ⟨d, hd, hv.symm⟩)
    · exact Or.inr (Or.inr (Or.inl ⟨sc, hsc, hsyz, hv.symm⟩))
    · exact Or.inr (Or.inr (Or.inr ⟨r, hr, hv⟩))
  · rintro (⟨f, hf, hv⟩ | ⟨d, hd, hv⟩ | ⟨sc, hsc, hsyz, hv⟩ | ⟨r, hr, hv⟩)
    · exact Or.inl (Or.inl (Or.inl ⟨f, hf, hv⟩))
    · exact Or.inl (Or.inl (Or.inr ⟨d, hd, hv.symm⟩))
    · exact Or.inl (Or.inr ⟨sc, ⟨hsc, hsyz⟩, hv.symm⟩)
    · exact Or.inr ⟨r, hr, hv⟩

/-- C5: every symbol that `compileConsts` passes on to `fetchValues` is a
syntactically valid identifier — each character is an underscore or ASCII
letter, or an ASCII digit at a non-initial position — and every collected
symbol failing that test is silently dropped from `valArr`. -/
theorem fetchValues_inputs_are_identifiers (desc : Description) (v : String) :
    (v ∈ valArr desc →
      isIdentifier v = true ∧
      ∀ p ∈ v.data.enum,
        p.2 = '_' ∨ ('a' ≤ p.2 ∧ p.2 ≤ 'z') ∨ ('A' ≤ p.2 ∧ p.2 ≤ 'Z') ∨
          (0 < p.1 ∧ '0' ≤ p.2 ∧ p.2 ≤ '9')) ∧
    (isIdentifier v = false → v ∉ valArr desc) := by
  constructor
  · intro hmem
    have hid : isIdentifier v = true := (List.mem_filter.mp hmem).2
    refine ⟨hid, ?_⟩
    intro p hp
    have hc := (List.all_eq_true.mp hid) p hp
    simp only [Bool.or_eq_true, Bool.and_eq_true, decide_eq_true_eq, beq_iff_eq] at hc
    tauto
  · intro hid hmem
    have hT := (List.mem_filter.mp hmem).2
    rw [hid] at hT
    exact Bool.false_ne_true hT

/-- Witness for `fetchValues_inputs_are_identifiers`: a description with
one valid (`a1`) and one invalid (`1x`) flag value; `a1` passes with the
characterization, `1x` is filtered out. -/
theorem fetchValues_inputs_are_identifiers_witness :
    ("a1" ∈ valArr (Description.mk [("f", ["a1", "1x"])] [] [] [] [] []) ∧
      (isIdentifier "a1" = true ∧
        ∀ p ∈ ("a1" : String).data.enum,
          p.2 = '_' ∨ ('a' ≤ p.2 ∧ p.2 ≤ 'z') ∨ ('A' ≤ p.2 ∧ p.2 ≤ 'Z') ∨
            (0 < p.1 ∧ '0' ≤ p.2 ∧ p.2 ≤ '9'))) ∧
    (isIdentifier "1x" = false ∧
      "1x" ∉ valArr (Description.mk [("f", ["a1", "1x"])] [] [] [] [] [])) :=
  ⟨⟨by decide,
    (fetchValues_inputs_are_identifiers
      (Description.mk [("f", ["a1", "1x"])] [] [] [] [] []) "a1").1 (by decide)⟩,
   by decide,
   (fetchValues_inputs_are_identifiers
      (Description.mk [("f", ["a1", "1x"])] [] [] [] [] []) "1x").2 (by decide)⟩

/-- C9: `isIdentifier` accepts the empty string (its loop body never runs),
so an empty-string symbol collected from a description survives the filter
and is among the symbols handed to C-preprocessor resolution. -/
theorem isIdentifier_empty_accepted :
    isIdentifier "" = true ∧
    ∀ desc : Description, "" ∈ collectVals desc → "" ∈ valArr desc := by
  refine ⟨by decide, ?_⟩
  intro desc h
  exact List.mem_filter.mpr ⟨h, by decide⟩

/-- Witness for `isIdentifier_empty_accepted`: a description with an
empty-string flag value; the empty string reaches `valArr`. -/
theorem isIdentifier_empty_accepted_witness :
    "" ∈ collectVals (Description.mk [("f", [""])] [] [] [] [] []) ∧
    "" ∈ valArr (Description.mk [("f", [""])] [] [] [] [] []) :=
  ⟨by decide,
   isIdentifier_empty_accepted.2 (Description.mk [("f", [""])] [] [] [] [] []) (by decide)⟩

/-- C10: when no collected symbol is a valid identifier, `compileConsts`
returns the empty (nil) constant map no matter what the resolver would do
(it is never invoked), and a run with good flags and a writable output
succeeds, writing a file consisting of only the marker line. -/
theorem no_identifiers_marker_only (desc : Description) (hempty : valArr desc = []) :
    (∀ fetch : List String → Except String (List (String × Nat)),
      compileConsts fetch desc = Except.ok []) ∧
    ∀ flagLinux arch inname : String,
      ∀ fetch : List String → Except String (List (String × Nat)),
        flagLinux ≠ "" → (archs arch).isSome →
        mainRun flagLinux arch [inname] (fun _ => Except.ok desc) fetch true =
          RunOutcome.ok (outname inname arch, "# AUTOGENERATED FILE\n") := by
  have hcc : ∀ fetch : List String → Except String (List (String × Nat)),
      compileConsts fetch desc = Except.ok [] := by
    intro fetch
    unfold compileConsts
    rw [if_pos hempty]
  refine ⟨hcc, ?_⟩
  intro flagLinux arch inname fetch hlinux harch
  have harch' : arch ≠ "" := by
    rintro rfl
    rw [show archs "" = none from rfl] at harch
    exact Bool.false_ne_true harch
  unfold mainRun
  rw [if_neg hlinux, if_neg harch']
  obtain ⟨a, ha⟩ := Option.isSome_iff_exists.mp harch
  simp only [ha, hcc fetch, if_true]
  rfl

/-- Witness for `no_identifiers_marker_only`: a description whose only
collected symbol is the invalid identifier `1x`; the run writes just the
marker line. -/
theorem no_identifiers_marker_only_witness :
    valArr (Description.mk [("f", ["1x"])] [] [] [] [] []) = [] ∧
    compileConsts (fun _ => Except.error "resolver rejects everything")
        (Description.mk [("f", ["1x"])] [] [] [] [] []) = Except.ok [] ∧
    mainRun "/linux" "amd64" ["sys/foo.txt"]
        (fun _ => Except.ok (Description.mk [("f", ["1x"])] [] [] [] [] []))
        (fun _ => Except.error "resolver rejects everything") true =
      RunOutcome.ok (outname "sys/foo.txt" "amd64", "# AUTOGENERATED FILE\n") :=
  ⟨by decide,
   (no_identifiers_marker_only (Description.mk [("f", ["1x"])] [] [] [] [] [])
      (by decide)).1 (fun _ => Except.error "resolver rejects everything"),
   (no_identifiers_marker_only (Description.mk [("f", ["1x"])] [] [] [] [] [])
      (by decide)).2 "/linux" "amd64" "sys/foo.txt"
      (fun _ => Except.error "resolver rejects everything") (by decide) (by decide)⟩

/-- Witness for `generateConsts_deterministic`: two genuinely different
enumeration orders of the same two-constant map. -/
theorem generateConsts_deterministic_witness :
    ([("b", 2), ("a", 10)] : List (String × Nat)).Perm [("a", 10), ("b", 2)] ∧
    (([("b", 2), ("a", 10)] : List (String × Nat)).map Prod.fst).Nodup ∧
    generateConsts [("b", 2), ("a", 10)] = generateConsts [("a", 10), ("b", 2)] :=
  ⟨List.Perm.swap ("a", 10) ("b", 2) [], by decide,
   generateConsts_deterministic [("b", 2), ("a", 10)] [("a", 10), ("b", 2)]
     (List.Perm.swap ("a", 10) ("b", 2) []) (by decide)⟩

/-- C7: the architecture registry contains exactly `amd64`, `arm64` and
`ppc64le`, each mapped to its preprocessor defines, kernel-header
subdirectory, kernel include and compiler flags; for every name outside
the registry (including the empty name of a missing `-arch` flag) the tool
exits with an error whose outcome is identical for every possible input
file — the input file is never opened. -/
theorem arch_registry (s : String) :
    ((archs s).isSome ↔ s = "amd64" ∨ s = "arm64" ∨ s = "ppc64le") ∧
    archs "amd64" = some ⟨["__x86_64__"], "x86", "asm/unistd.h", ["-m64"]⟩ ∧
    archs "arm64" = some ⟨["__aarch64__"], "arm64", "asm/unistd.h", []⟩ ∧
    archs "ppc64le" = some ⟨["__ppc64__", "__PPC64__", "__powerpc64__"], "powerpc",
      "asm/unistd.h", ["-D__powerpc64__"]⟩ ∧
    (archs s = none →
      ∀ flagLinux : String, ∀ args : List String,
        ∀ fetch : List String → Except String (List (String × Nat)), ∀ writeOk : Bool,
        ∃ msg : String, ∀ openFile : String → Except String Description,
          mainRun flagLinux s args openFile fetch writeOk = RunOutcome.fail msg) := by
  refine ⟨?_, by decide, by decide, by decide, ?_⟩
  · unfold archs
    split_ifs with h1 h2 h3 <;> simp_all
  · intro h flagLinux args fetch writeOk
    by_cases hL : flagLinux = ""
    · exact ⟨"provide path to linux kernel checkout via -linux flag (or make extract LINUX= flag)",
        fun openFile => by unfold mainRun; rw [if_pos hL]⟩
    by_cases hA : s = ""
    · exact ⟨"-arch flag is required",
        fun openFile => by unfold mainRun; rw [if_neg hL, if_pos hA]⟩
    refine ⟨"unknown arch " ++ s, fun openFile => ?_⟩
    unfold mainRun
    rw [if_neg hL, if_neg hA, h]

/-- Witness for `arch_registry` at the unsupported name `mips64`. -/
theorem arch_registry_witness :
    archs "mips64" = none ∧
    ∃ msg : String, ∀ openFile : String → Except String Description,
      mainRun "/linux" "mips64" ["sys/foo.txt"] openFile (fun _ => Except.ok []) true
        = RunOutcome.fail msg :=
  ⟨by decide,
   (arch_registry "mips64").2.2.2.2 (by decide) "/linux" ["sys/foo.txt"]
     (fun _ => Except.ok []) true⟩

/-- C6: whenever constant resolution fails (and there was something to
resolve) or writing the output fails, the run ends in `failf` — a
diagnostic followed by exit status 1 — and no output file is produced; and
every successful run writes exactly one file carrying the complete
generated output of the fully resolved constants map. -/
theorem failures_abort_without_output
    (flagLinux flagArch inname : String)
    (openFile : String → Except String Description)
    (fetch : List String → Except String (List (String × Nat)))
    (writeOk : Bool) (desc : Description)
    (hopen : openFile inname = Except.ok desc) :
    ((((∃ e, fetch (valArr desc) = Except.error e) ∧ valArr desc ≠ []) ∨ writeOk = false) →
      ∃ msg, mainRun flagLinux flagArch [inname] openFile fetch writeOk
        = RunOutcome.fail msg) ∧
    ∀ f, mainRun flagLinux flagArch [inname] openFile fetch writeOk = RunOutcome.ok f →
      writeOk = true ∧ ∃ consts, compileConsts fetch desc = Except.ok consts ∧
        f = (outname inname flagArch, generateConsts consts) := by
  constructor
  · intro hfail
    by_cases hL : flagLinux = ""
    · exact ⟨_, by unfold mainRun; rw [if_pos hL]⟩
    by_cases hA : flagArch = ""
    · exact ⟨_, by unfold mainRun; rw [if_neg hL, if_pos hA]⟩
    cases harch : archs flagArch with
    | none => exact ⟨_, by unfold mainRun; rw [if_neg hL, if_neg hA, harch]⟩
    | some a =>
      rcases hfail with ⟨⟨e, he⟩, hne⟩ | hw
      · refine ⟨e, ?_⟩
        have hcc : compileConsts fetch desc = Except.error e := by
          unfold compileConsts
          rw [if_neg hne, he]
        unfold mainRun
        rw [if_neg hL, if_neg hA, harch]
        simp only [hopen, hcc]
      · cases hcc : compileConsts fetch desc with
        | error e =>
          refine ⟨e, ?_⟩
          unfold mainRun
          rw [if_neg hL, if_neg hA, harch]
          simp only [hopen, hcc]
        | ok consts =>
          refine ⟨"failed to write output file", ?_⟩
          unfold mainRun
          rw [if_neg hL, if_neg hA, harch]
          simp only [hopen, hcc, hw, Bool.false_eq_true, if_false]
  · intro f hf
    by_cases hL : flagLinux = ""
    · rw [show mainRun flagLinux flagArch [inname] openFile fetch writeOk
          = RunOutcome.fail "provide path to linux kernel checkout via -linux flag (or make extract LINUX= flag)"
          from by unfold mainRun; rw [if_pos hL]] at hf
      exact absurd hf (by simp)
    by_cases hA : flagArch = ""
    · rw [show mainRun flagLinux flagArch [inname] openFile fetch writeOk
          = RunOutcome.fail "-arch flag is required"
          from by unfold mainRun; rw [if_neg hL, if_pos hA]] at hf
      exact absurd hf (by simp)
    cases harch : archs flagArch with
    | none =>
      rw [show mainRun flagLinux flagArch [inname] openFile fetch writeOk
          = RunOutcome.fail ("unknown arch " ++ flagArch)
          from by unfold mainRun; rw [if_neg hL, if_neg hA, harch]] at hf
      exact absurd hf (by simp)
    | some a =>
      unfold mainRun at hf
      rw [if_neg hL, if_neg hA, harch] at hf
      simp only [hopen] at hf
      cases hcc : compileConsts fetch desc with
      | error e =>
        rw [hcc] at hf
        exact absurd hf (by simp)
      | ok consts =>
        rw [hcc] at hf
        cases hwk : writeOk with
        | false =>
          rw [hwk] at hf
          exact absurd hf (by simp)
        | true =>
          rw [hwk] at hf
          simp only [if_true] at hf
          exact ⟨rfl, consts, rfl, (RunOutcome.ok.inj hf).symm⟩

/-- Witness for `failures_abort_without_output`: a run whose resolver
fails on the one collected symbol `ab` ends in a `failf` exit. -/
theorem failures_abort_without_output_witness :
    ∃ msg, mainRun "/linux" "amd64" ["sys/foo.txt"]
        (fun _ => Except.ok (Description.mk [("f", ["ab"])] [] [] [] [] []))
        (fun _ => Except.error "resolution failed") true
      = RunOutcome.fail msg :=
  (failures_abort_without_output "/linux" "amd64" "sys/foo.txt"
      (fun _ => Except.ok (Description.mk [("f", ["ab"])] [] [] [] [] []))
      (fun _ => Except.error "resolution failed") true
      (Description.mk [("f", ["ab"])] [] [] [] [] []) rfl).1
    (Or.inl ⟨⟨"resolution failed", rfl⟩, by decide⟩)

end SyzExtract

namespace FlatRPC

/-- C8: the wire schema's two message unions are closed and disjoint — the
host-to-executor union consists of exactly the variants ExecRequest,
SignalUpdate, CorpusTriaged and StateRequest, the executor-to-host union
of exactly ExecResult, Executing and State, every value of either embedded
union type carries one of its union's tags, every tag is realized, and no
payload table type belongs to both unions. -/
theorem message_unions_disjoint_closed :
    hostUnionMembers.map Prod.fst
      = ["ExecRequest", "SignalUpdate", "CorpusTriaged", "StateRequest"] ∧
    executorUnionMembers.map Prod.fst = ["ExecResult", "Executing", "State"] ∧
    (∀ m : HostMessagesRaw, hostVariantName m ∈ hostUnionMembers.map Prod.fst) ∧
    (∀ n ∈ hostUnionMembers.map Prod.fst, ∃ m, hostVariantName m = n) ∧
    (∀ m : ExecutorMessagesRaw, executorVariantName m ∈ executorUnionMembers.map Prod.fst) ∧
    (∀ n ∈ executorUnionMembers.map Prod.fst, ∃ m, executorVariantName m = n) ∧
    ∀ t : String, t ∈ hostUnionMembers.map Prod.snd →
      t ∉ executorUnionMembers.map Prod.snd := by
  refine ⟨by decide, by decide, ?_, ?_, ?_, ?_, ?_⟩
  · intro m
    cases m <;> simp [hostVariantName, hostUnionMembers]
  · intro n hn
    fin_cases hn
    · exact ⟨HostMessagesRaw.ExecRequest ⟨0, [], ⟨0, 0, 0⟩, 0, []⟩, rfl⟩
    · exact ⟨HostMessagesRaw.SignalUpdate ⟨[]⟩, rfl⟩
    · exact ⟨HostMessagesRaw.CorpusTriaged ⟨⟩, rfl⟩
    · exact ⟨HostMessagesRaw.StateRequest ⟨⟩, rfl⟩
  · intro m
    cases m <;> simp [executorVariantName, executorUnionMembers]
  · intro n hn
    fin_cases hn
    · exact ⟨ExecutorMessagesRaw.ExecResult ⟨0, [], "", none⟩, rfl⟩
    · exact ⟨ExecutorMessagesRaw.Executing ⟨0, 0, 0, 0⟩, rfl⟩
    · exact ⟨ExecutorMessagesRaw.State ⟨[]⟩, rfl⟩
  · intro t ht
    fin_cases ht <;> decide

/-- Witness for `message_unions_disjoint_closed`: the tag `ExecRequest` is
realized, and the payload type `ExecRequestRaw` of the host union does not
occur in the executor union. -/
theorem message_unions_disjoint_closed_witness :
    (∃ m, hostVariantName m = "ExecRequest") ∧
    "ExecRequestRaw" ∉ executorUnionMembers.map Prod.snd :=
  ⟨message_unions_disjoint_closed.2.2.2.1 "ExecRequest" (by decide),
   message_unions_disjoint_closed.2.2.2.2.2.2 "ExecRequestRaw" (by decide)⟩

end FlatRPC
